import Mathlib

/-!
# pycups: the natural-order model-name comparator `do_model_compare`

A shallow embedding of `do_model_compare` (src/cupsmodule.c, lines 37-89) and
proofs about it.

## Data model

* A C string is the list of its `char` values before the terminating NUL.  A
  `char` value is an `Int`: on a platform with signed `char` the values are in
  `-128..127`, on one with unsigned `char` in `0..255`.  The source compares
  `char`s directly (`quick_a < quick_b`), which is the comparison of these
  integers, while `strncmp` compares them converted to `unsigned char`
  (see `uchar`).
* A pointer into a string is the string and an offset into it; what the
  library functions read through it is the rest of the string from that offset
  (`List.drop`), and `*a != '\0'` is "the rest is not empty".
* `int end_a = strspn (...)`: the library returns a `size_t`, the source keeps
  it in an `int`.  The conversion is `to_int`, reduction modulo `2^32` into
  `-2^31 .. 2^31 - 1` (a 32-bit `int`, 64-bit `size_t` and `long`).  So a run of
  `2^32` characters is measured as 0 and one of `2^31` characters as `-2^31`.
* `atoi` is the C library's; see `atoi` below for the model of its result when
  the digit run does not fit an `int`.

## Plan

`do_model_compare_fuel` runs the loop of the source.  `do_model_compare_unbounded`
is the same loop with the run lengths kept as natural numbers; it is a device of
the proofs: on strings shorter than `2^31` bytes the two agree
(`do_model_compare_eq_unbounded`), and the order properties are proved on the
second one.  On longer strings they differ, and the source need not return.
-/

namespace Cups

/-- The C string of an ASCII literal: the list of its character codes. -/
def cstr (s : String) : List Int := s.toList.map (fun c => (c.toNat : Int))

/-- The local `const char *digits = "0123456789"`. -/
def digits : List Int := [48, 49, 50, 51, 52, 53, 54, 55, 56, 57]

/-- The C library's `isdigit` (not affected by the locale). -/
def isdigit (c : Int) : Bool := decide (48 ≤ c) && decide (c ≤ 57)

/-- The C library's `strspn (s, accept)`: the length of the longest prefix of
`s` made of characters of `accept`. -/
def strspn : List Int → List Int → Nat
  | [], _ => 0
  | c :: s, accept => if c ∈ accept then strspn s accept + 1 else 0

/-- The C library's `strcspn (s, reject)`: the length of the longest prefix of
`s` made of characters that are not in `reject`. -/
def strcspn : List Int → List Int → Nat
  | [], _ => 0
  | c :: s, reject => if c ∈ reject then 0 else strcspn s reject + 1

/-- Conversion of a `char` to `unsigned char`, as `strncmp` does before it
compares. -/
def uchar (c : Int) : Int := c % 256

/-- The C library's `strncmp (a, b, n)`: compares at most `n` characters, as
`unsigned char`; the end of a string is the NUL character, of value 0.  The
result is the difference of the first two characters that differ (only its
sign is specified by the C standard, and only its sign is used below). -/
def strncmp : List Int → List Int → Nat → Int
  | _, _, 0 => 0
  | [], [], _ + 1 => 0
  | [], y :: _, _ + 1 => 0 - uchar y
  | x :: _, [], _ + 1 => uchar x - 0
  | x :: xs, y :: ys, n + 1 =>
    if uchar x = uchar y then strncmp xs ys n else uchar x - uchar y

/-- The value of the decimal numeral that starts the string: the digits are
accumulated most significant first, `acc` is the value read so far. -/
def decimal : List Int → Nat → Nat
  | [], acc => acc
  | c :: s, acc => if isdigit c then decimal s (10 * acc + (c - 48).toNat) else acc

/-- `LONG_MAX` of an LP64 platform. -/
def LONG_MAX : Nat := 2 ^ 63 - 1

/-- `INT_MAX`. -/
def INT_MAX : Nat := 2 ^ 31 - 1

/-- Conversion of a `size_t` or `long` value to `int`: reduction modulo `2^32`
into `-2^31 .. 2^31 - 1`. -/
def to_int (n : Int) : Int := (n + 2 ^ 31) % 2 ^ 32 - 2 ^ 31

/-- Conversion of an `int` to `size_t` (64 bits), as for the third argument of
`strncmp`: reduction modulo `2^64`. -/
def to_size (n : Int) : Nat := (n % 2 ^ 64).toNat

/-- The C library's `atoi` on a string that starts with a digit, which is the
case at both calls in `do_model_compare` (so the white space and the sign that
`atoi` accepts in front of the digits cannot occur).  The result is the value
of the digit run when it fits an `int`.  When it does not, the C standard
leaves the result open; the model follows glibc, where `atoi (s)` is
`(int) strtol (s, NULL, 10)`: `strtol` saturates at `LONG_MAX` and the
conversion to `int` keeps the low 32 bits. -/
def atoi (s : List Int) : Int := to_int (min (decimal s 0) LONG_MAX : Nat)

/-- How one iteration of the `while` loop ends: with a `return`, or at the end
of the body (lines 80-82: `a += end_a; b += end_b; continue;`) with the two
`int`s that are added to the pointers. -/
inductive Step where
  | ret (r : Int)
  | next (end_a end_b : Int)
  deriving DecidableEq

/-- Lines 66-85 of the loop body: the two segments have the same class and the
measured lengths `end_a`, `end_b` (both `int`); compare their contents, then
their lengths. -/
def compare_segments (a b : List Int) (end_a end_b : Int) (a_is_digit : Bool) : Step :=
  let cmp : Int :=
    if a_is_digit then
      let n_a := atoi a
      let n_b := atoi b
      if n_a < n_b then -1
      else if n_a = n_b then 0
      else 1
    else
      let min : Int := if end_a < end_b then end_a else end_b
      strncmp a b (to_size min)
  if cmp = 0 then
    if end_a ≠ end_b then
      Step.ret (if end_a < end_b then -1 else 1)
    else
      Step.next end_a end_b
  else
    Step.ret cmp

/-- The body of the `while` loop (lines 43-85); `a` and `b` are what the two
pointers point at, `quick_a` and `quick_b` their first characters, assigned by
the loop condition.  Lines 54-57
(`if (!end_a) { end_a = strcspn (a, digits); a_is_digit = 0; }`) give the two
bindings `a_is_digit` and `end_a` below; a negative `char` passed to `isdigit`
is not a digit. -/
def loop_body (quick_a quick_b : Int) (a b : List Int) : Step :=
  let end_a : Int := to_int (strspn a digits)
  let end_b : Int := to_int (strspn b digits)
  if quick_a ≠ quick_b ∧ isdigit quick_a = false ∧ isdigit quick_b = false then
    if quick_a < quick_b then Step.ret (-1) else Step.ret 1
  else
    let a_is_digit : Bool := !(end_a = 0)
    let end_a : Int := if end_a = 0 then to_int (strcspn a digits) else end_a
    if end_b = 0 then
      if a_is_digit then Step.ret (-1)
      else
        let end_b : Int := to_int (strcspn b digits)
        compare_segments a b end_a end_b a_is_digit
    else if !a_is_digit then Step.ret 1
    else compare_segments a b end_a end_b a_is_digit

/-- What a run of `do_model_compare` comes to: it returns `r`; or it moves a
pointer in front of its string, where the C standard defines nothing; or it is
still in the loop when the fuel of the model is used up. -/
inductive Outcome where
  | ret (r : Int)
  | undefined
  | out_of_fuel
  deriving DecidableEq

/-- The `while` loop of `do_model_compare` (lines 42-88) on the strings `sa`
and `sb`, with the pointer `a` at offset `i` of `sa` and `b` at offset `j` of
`sb`, run for at most `fuel` iterations.  A measured length that is not
negative is at most the length of the run, so that the pointers cannot leave
the strings at their ends. -/
def do_model_compare_fuel : Nat → List Int → List Int → Nat → Nat → Outcome
  | 0, _, _, _, _ => Outcome.out_of_fuel
  | fuel + 1, sa, sb, i, j =>
    match sa.drop i, sb.drop j with
    | quick_a :: ta, quick_b :: tb =>
      match loop_body quick_a quick_b (quick_a :: ta) (quick_b :: tb) with
      | Step.ret r => Outcome.ret r
      | Step.next end_a end_b =>
        if 0 ≤ (i : Int) + end_a ∧ 0 ≤ (j : Int) + end_b then
          do_model_compare_fuel fuel sa sb ((i : Int) + end_a).toNat ((j : Int) + end_b).toNat
        else Outcome.undefined
    | _, _ => Outcome.ret 0

/-- `do_model_compare (a, b)` (lines 37-89): the loop from the starts of the
two strings, with fuel for one iteration more than `a` has characters (every
iteration on strings shorter than `2^31` bytes moves on by at least one
character, see `do_model_compare_eq_unbounded`). -/
def do_model_compare (a b : List Int) : Outcome :=
  do_model_compare_fuel (a.length + 1) a b 0 0

/-! ## The loop with unbounded lengths (a device of the proofs) -/

/-- One iteration of the loop with unbounded lengths: a `return`, or the two
strings behind their leading segments. -/
inductive Step_unbounded where
  | ret (r : Int)
  | next (a b : List Int)
  deriving DecidableEq

/-- The text of `compare_segments` with the lengths as natural numbers. -/
def compare_segments_unbounded (a b : List Int) (end_a end_b : Nat) (a_is_digit : Bool) :
    Step_unbounded :=
  let cmp : Int :=
    if a_is_digit then
      let n_a := atoi a
      let n_b := atoi b
      if n_a < n_b then -1
      else if n_a = n_b then 0
      else 1
    else
      let min := if end_a < end_b then end_a else end_b
      strncmp a b min
  if cmp = 0 then
    if end_a ≠ end_b then
      Step_unbounded.ret (if end_a < end_b then -1 else 1)
    else
      Step_unbounded.next (a.drop end_a) (b.drop end_b)
  else
    Step_unbounded.ret cmp

/-- The text of `loop_body` with the lengths as natural numbers (no conversion to
`int`). -/
def loop_body_unbounded (quick_a quick_b : Int) (a b : List Int) : Step_unbounded :=
  let end_a := strspn a digits
  let end_b := strspn b digits
  if quick_a ≠ quick_b ∧ isdigit quick_a = false ∧ isdigit quick_b = false then
    if quick_a < quick_b then Step_unbounded.ret (-1) else Step_unbounded.ret 1
  else
    let a_is_digit : Bool := !(end_a = 0)
    let end_a := if end_a = 0 then strcspn a digits else end_a
    if end_b = 0 then
      if a_is_digit then Step_unbounded.ret (-1)
      else
        let end_b := strcspn b digits
        compare_segments_unbounded a b end_a end_b a_is_digit
    else if !a_is_digit then Step_unbounded.ret 1
    else compare_segments_unbounded a b end_a end_b a_is_digit

/-- The loop with unbounded lengths.  It is total: an iteration that goes on has
left a segment of at least one character behind. -/
def do_model_compare_unbounded (a b : List Int) : Int :=
  match a, b with
  | quick_a :: ta, quick_b :: tb =>
    match h : loop_body_unbounded quick_a quick_b (quick_a :: ta) (quick_b :: tb) with
    | Step_unbounded.ret r => r
    | Step_unbounded.next a' b' => do_model_compare_unbounded a' b'
  | _, _ => 0
termination_by a.length
decreasing_by
  have h0 : strspn (quick_a :: ta) digits = 0 → 1 ≤ strcspn (quick_a :: ta) digits := by
    unfold strspn strcspn
    split_ifs <;> simp
  have h1 : ∀ end_a end_b d,
      compare_segments_unbounded (quick_a :: ta) (quick_b :: tb) end_a end_b d
        = Step_unbounded.next a' b' → a' = (quick_a :: ta).drop end_a := by
    intro end_a end_b d hc
    simp only [compare_segments_unbounded] at hc
    split_ifs at hc <;> simp only [Step_unbounded.next.injEq, reduceCtorEq] at hc
    all_goals exact hc.1.symm
  simp only [loop_body_unbounded] at h
  split_ifs at h
  all_goals
    rw [h1 _ _ _ h, List.length_drop]
    simp only [List.length_cons]
    omega

/-- The length of the segment that starts the string, before the conversion to
`int`: the digit run when there is one, else the run of other characters. -/
def seg_len (s : List Int) : Nat :=
  if strspn s digits = 0 then strcspn s digits else strspn s digits

/-- The sort key of the segment that starts the string: class first (a digit
run sorts before a run of other characters), then for a digit run what `atoi`
reads and the length of the run, for a run of other characters the first
character as a `char` and the run as `unsigned char`s.  Two keys are compared
lexicographically. -/
def key : List Int → List Int
  | [] => []
  | q :: s =>
    if isdigit q then [0, atoi (q :: s), (seg_len (q :: s) : Int)]
    else 1 :: q :: ((q :: s).take (seg_len (q :: s))).map uchar

/-- The number that a run of decimal digits denotes (the last character is the
units digit). -/
def value (x : List Int) : Nat := Nat.ofDigits 10 (x.reverse.map (fun c => (c - 48).toNat))

/-- The identifiers of the end-to-end scenario, in the order of the input. -/
def scenario_input : List (List Int) :=
  [cstr "HP-200", cstr "HP-20", cstr "HP-2", cstr "HP-1000"]

/-- The identifiers of the end-to-end scenario, in the expected order. -/
def scenario_sorted : List (List Int) :=
  [cstr "HP-2", cstr "HP-20", cstr "HP-200", cstr "HP-1000"]

/-- The test that a sort makes on two neighbours of its output: the comparison
returns, and the first does not compare Greater with the second. -/
def in_order (x y : List Int) : Bool :=
  match do_model_compare x y with
  | Outcome.ret r => decide (r ≤ 0)
  | _ => false

/-- The test of a whole list: all neighbours are in order. -/
def all_in_order : List (List Int) → Bool
  | x :: y :: l => in_order x y && all_in_order (y :: l)
  | _ => true

/-! ## Unfolding the loop -/

theorem unbounded_nil_left (b : List Int) : do_model_compare_unbounded [] b = 0 := by
  unfold do_model_compare_unbounded
  rfl

theorem unbounded_nil_right (a : List Int) : do_model_compare_unbounded a [] = 0 := by
  unfold do_model_compare_unbounded
  cases a <;> rfl

theorem unbounded_cons (qa qb : Int) (ta tb : List Int) :
    do_model_compare_unbounded (qa :: ta) (qb :: tb) =
      match loop_body_unbounded qa qb (qa :: ta) (qb :: tb) with
      | Step_unbounded.ret r => r
      | Step_unbounded.next a' b' => do_model_compare_unbounded a' b' := by
  rw [do_model_compare_unbounded]
  split <;> simp_all

/-! ## The library functions on the first segment -/

theorem mem_digits_iff (c : Int) : c ∈ digits ↔ isdigit c = true := by
  simp only [digits, isdigit, List.mem_cons, List.mem_singleton, List.not_mem_nil, or_false,
    Bool.and_eq_true, decide_eq_true_eq]
  omega

theorem strspn_cons_digit {c : Int} (s : List Int) (h : isdigit c = true) :
    strspn (c :: s) digits = strspn s digits + 1 := by
  simp [strspn, (mem_digits_iff c).2 h]

theorem strspn_cons_other {c : Int} (s : List Int) (h : isdigit c = false) :
    strspn (c :: s) digits = 0 := by
  have : c ∉ digits := by rw [mem_digits_iff]; simp [h]
  simp [strspn, this]

theorem strcspn_cons_digit {c : Int} (s : List Int) (h : isdigit c = true) :
    strcspn (c :: s) digits = 0 := by
  simp [strcspn, (mem_digits_iff c).2 h]

theorem strcspn_cons_other {c : Int} (s : List Int) (h : isdigit c = false) :
    strcspn (c :: s) digits = strcspn s digits + 1 := by
  have : c ∉ digits := by rw [mem_digits_iff]; simp [h]
  simp [strcspn, this]

theorem strspn_le (s : List Int) : strspn s digits ≤ s.length := by
  induction s with
  | nil => simp [strspn]
  | cons c s ih =>
    cases h : isdigit c
    · rw [strspn_cons_other s h]; omega
    · rw [strspn_cons_digit s h]; simp only [List.length_cons]; omega

theorem strcspn_le (s : List Int) : strcspn s digits ≤ s.length := by
  induction s with
  | nil => simp [strcspn]
  | cons c s ih =>
    cases h : isdigit c
    · rw [strcspn_cons_other s h]; simp only [List.length_cons]; omega
    · rw [strcspn_cons_digit s h]; omega

theorem seg_len_cons_digit {c : Int} (s : List Int) (h : isdigit c = true) :
    seg_len (c :: s) = strspn s digits + 1 := by
  simp [seg_len, strspn_cons_digit s h]

theorem seg_len_cons_other {c : Int} (s : List Int) (h : isdigit c = false) :
    seg_len (c :: s) = strcspn s digits + 1 := by
  simp [seg_len, strspn_cons_other s h, strcspn_cons_other s h]

theorem seg_len_le (s : List Int) : seg_len s ≤ s.length := by
  unfold seg_len
  split_ifs
  · exact strcspn_le s
  · exact strspn_le s

theorem seg_len_pos (c : Int) (s : List Int) : 1 ≤ seg_len (c :: s) := by
  cases h : isdigit c
  · rw [seg_len_cons_other s h]; omega
  · rw [seg_len_cons_digit s h]; omega

theorem compare_segments_unbounded_digit (a b : List Int) (end_a end_b : Nat) :
    compare_segments_unbounded a b end_a end_b true =
      if atoi a < atoi b then Step_unbounded.ret (-1)
      else if atoi a = atoi b then
        (if end_a ≠ end_b then Step_unbounded.ret (if end_a < end_b then -1 else 1)
         else Step_unbounded.next (a.drop end_a) (b.drop end_b))
      else Step_unbounded.ret 1 := by
  simp only [compare_segments_unbounded]
  split_ifs <;> simp_all

theorem compare_segments_unbounded_other (a b : List Int) (end_a end_b : Nat) :
    compare_segments_unbounded a b end_a end_b false =
      if strncmp a b (if end_a < end_b then end_a else end_b) = 0 then
        (if end_a ≠ end_b then Step_unbounded.ret (if end_a < end_b then -1 else 1)
         else Step_unbounded.next (a.drop end_a) (b.drop end_b))
      else Step_unbounded.ret (strncmp a b (if end_a < end_b then end_a else end_b)) := by
  simp [compare_segments_unbounded]

theorem loop_body_unbounded_digit_digit {qa qb : Int} (ta tb : List Int)
    (ha : isdigit qa = true) (hb : isdigit qb = true) :
    loop_body_unbounded qa qb (qa :: ta) (qb :: tb) =
      compare_segments_unbounded (qa :: ta) (qb :: tb) (seg_len (qa :: ta)) (seg_len (qb :: tb)) true := by
  simp [loop_body_unbounded, seg_len, strspn_cons_digit _ ha, strspn_cons_digit _ hb, ha, hb]

theorem loop_body_unbounded_digit_other {qa qb : Int} (ta tb : List Int)
    (ha : isdigit qa = true) (hb : isdigit qb = false) :
    loop_body_unbounded qa qb (qa :: ta) (qb :: tb) = Step_unbounded.ret (-1) := by
  simp [loop_body_unbounded, strspn_cons_digit _ ha, strspn_cons_other _ hb, ha, hb]

theorem loop_body_unbounded_other_digit {qa qb : Int} (ta tb : List Int)
    (ha : isdigit qa = false) (hb : isdigit qb = true) :
    loop_body_unbounded qa qb (qa :: ta) (qb :: tb) = Step_unbounded.ret 1 := by
  simp [loop_body_unbounded, strspn_cons_digit _ hb, strspn_cons_other _ ha, ha, hb]

theorem loop_body_unbounded_other_other_ne {qa qb : Int} (ta tb : List Int)
    (ha : isdigit qa = false) (hb : isdigit qb = false) (hne : qa ≠ qb) :
    loop_body_unbounded qa qb (qa :: ta) (qb :: tb) = Step_unbounded.ret (if qa < qb then -1 else 1) := by
  simp only [loop_body_unbounded, ha, hb, hne, ne_eq, not_false_eq_true, and_self, if_true]
  split_ifs <;> rfl

theorem loop_body_unbounded_other_other_eq {q : Int} (ta tb : List Int) (ha : isdigit q = false) :
    loop_body_unbounded q q (q :: ta) (q :: tb) =
      compare_segments_unbounded (q :: ta) (q :: tb) (seg_len (q :: ta)) (seg_len (q :: tb)) false := by
  simp [loop_body_unbounded, seg_len, strspn_cons_other _ ha, strcspn_cons_other _ ha, ha]

/-! ## One iteration compares the keys of the two leading segments -/

theorem lex_cons_cons (x y : Int) (l₁ l₂ : List Int) :
    List.Lex (· < ·) (x :: l₁) (y :: l₂) ↔ x < y ∨ (x = y ∧ List.Lex (· < ·) l₁ l₂) := by
  constructor
  · intro h
    cases h with
    | cons h => exact Or.inr ⟨rfl, h⟩
    | rel h => exact Or.inl h
  · rintro (h | ⟨rfl, h⟩)
    · exact List.Lex.rel h
    · exact List.Lex.cons h

theorem lex_irrefl (l : List Int) : ¬ List.Lex (· < ·) l l :=
  irrefl (r := List.Lex (· < ·)) l

theorem lex_asymm {l₁ l₂ : List Int} (h₁ : List.Lex (· < ·) l₁ l₂) :
    ¬ List.Lex (· < ·) l₂ l₁ :=
  asymm (r := List.Lex (· < ·)) h₁

theorem lex_trichotomy (l₁ l₂ : List Int) :
    List.Lex (· < ·) l₁ l₂ ∨ l₁ = l₂ ∨ List.Lex (· < ·) l₂ l₁ :=
  @IsTrichotomous.trichotomous _ (List.Lex (· < ·)) _ l₁ l₂

/-- What `strncmp` over the shorter of two lengths computes, followed by the
comparison of the lengths, is the lexicographic order of the two prefixes read
as `unsigned char`. -/
theorem strncmp_spec : ∀ (a b : List Int) (n m : Nat), n ≤ a.length → m ≤ b.length →
    (List.Lex (· < ·) ((a.take n).map uchar) ((b.take m).map uchar) ↔
      strncmp a b (if n < m then n else m) < 0 ∨
        (strncmp a b (if n < m then n else m) = 0 ∧ n < m)) ∧
    ((a.take n).map uchar = (b.take m).map uchar ↔
      strncmp a b (if n < m then n else m) = 0 ∧ n = m) := by
  intro a
  induction a with
  | nil =>
    intro b n m hn hm
    have hn0 : n = 0 := by simpa using hn
    subst hn0
    cases m with
    | zero => simp [strncmp, List.Lex.not_nil_right]
    | succ m =>
      cases b with
      | nil => simp at hm
      | cons y b => simp [strncmp, List.Lex.nil]
  | cons x a ih =>
    intro b n m hn hm
    cases n with
    | zero =>
      cases m with
      | zero => simp [strncmp, List.Lex.not_nil_right]
      | succ m =>
        cases b with
        | nil => simp at hm
        | cons y b => simp [strncmp, List.Lex.nil]
    | succ n =>
      cases m with
      | zero => simp [strncmp, List.Lex.not_nil_right]
      | succ m =>
        cases b with
        | nil => simp at hm
        | cons y b =>
          have hn' : n ≤ a.length := by simpa using hn
          have hm' : m ≤ b.length := by simpa using hm
          obtain ⟨ih1, ih2⟩ := ih b n m hn' hm'
          have hmin : (if n + 1 < m + 1 then n + 1 else m + 1) = (if n < m then n else m) + 1 := by
            split_ifs <;> omega
          rw [hmin]
          simp only [List.take_succ_cons, List.map_cons, lex_cons_cons, strncmp, List.cons.injEq]
          by_cases hxy : uchar x = uchar y
          · simp only [hxy, if_true, lt_irrefl, false_or, true_and]
            rw [ih1, ih2]
            constructor
            · constructor
              · rintro (h | ⟨h, h'⟩)
                · exact Or.inl h
                · exact Or.inr ⟨h, by omega⟩
              · rintro (h | ⟨h, h'⟩)
                · exact Or.inl h
                · exact Or.inr ⟨h, by omega⟩
            · constructor
              · rintro ⟨h, h'⟩; exact ⟨h, by omega⟩
              · rintro ⟨h, h'⟩; exact ⟨h, by omega⟩
          · simp only [hxy, if_false, false_and, or_false]
            constructor
            · constructor
              · intro h; left; omega
              · rintro (h | ⟨h, _⟩)
                · omega
                · exact absurd (by omega) hxy
            · constructor
              · intro h; exact h.elim
              · rintro ⟨h, _⟩; exact absurd (by omega) hxy

theorem strncmp_spec_gt (a b : List Int) (n m : Nat) (hn : n ≤ a.length) (hm : m ≤ b.length) :
    List.Lex (· < ·) ((b.take m).map uchar) ((a.take n).map uchar) ↔
      0 < strncmp a b (if n < m then n else m) ∨
        (strncmp a b (if n < m then n else m) = 0 ∧ m < n) := by
  obtain ⟨h1, h2⟩ := strncmp_spec a b n m hn hm
  constructor
  · intro h
    have n1 := lex_asymm h
    have n2 : (a.take n).map uchar ≠ (b.take m).map uchar := fun e => lex_irrefl _ (e ▸ h)
    rw [h1] at n1
    rw [Ne, h2] at n2
    omega
  · intro h
    rcases lex_trichotomy ((a.take n).map uchar) ((b.take m).map uchar) with h' | h' | h'
    · rw [h1] at h'; omega
    · rw [h2] at h'; omega
    · exact h'

theorem key_cons_digit {q : Int} (s : List Int) (h : isdigit q = true) :
    key (q :: s) = [0, atoi (q :: s), (seg_len (q :: s) : Int)] := by
  simp [key, h]

theorem key_cons_other {q : Int} (s : List Int) (h : isdigit q = false) :
    key (q :: s) = 1 :: q :: ((q :: s).take (seg_len (q :: s))).map uchar := by
  simp [key, h]

/-- One iteration of the loop compares the keys of the two leading segments:
it returns a negative value when the key of `a` is the smaller one, a positive
value when it is the larger one, and goes on behind the two segments when the
keys are equal. -/
theorem loop_body_unbounded_spec (qa qb : Int) (ta tb : List Int) :
    (List.Lex (· < ·) (key (qa :: ta)) (key (qb :: tb)) →
      ∃ r, loop_body_unbounded qa qb (qa :: ta) (qb :: tb) = Step_unbounded.ret r ∧ r < 0) ∧
    (key (qa :: ta) = key (qb :: tb) →
      loop_body_unbounded qa qb (qa :: ta) (qb :: tb) =
        Step_unbounded.next ((qa :: ta).drop (seg_len (qa :: ta))) ((qb :: tb).drop (seg_len (qb :: tb)))) ∧
    (List.Lex (· < ·) (key (qb :: tb)) (key (qa :: ta)) →
      ∃ r, loop_body_unbounded qa qb (qa :: ta) (qb :: tb) = Step_unbounded.ret r ∧ 0 < r) := by
  cases ha : isdigit qa <;> cases hb : isdigit qb
  · -- two runs of other characters
    rw [key_cons_other ta ha, key_cons_other tb hb]
    by_cases hq : qa = qb
    · subst hq
      rw [loop_body_unbounded_other_other_eq ta tb ha, compare_segments_unbounded_other]
      obtain ⟨h1, h2⟩ := strncmp_spec (qa :: ta) (qa :: tb) _ _
        (seg_len_le (qa :: ta)) (seg_len_le (qa :: tb))
      have h3 := strncmp_spec_gt (qa :: ta) (qa :: tb) _ _
        (seg_len_le (qa :: ta)) (seg_len_le (qa :: tb))
      simp only [lex_cons_cons, lt_irrefl, false_or, true_and, List.cons.injEq]
      rw [h1, h2, h3]
      refine ⟨?_, ?_, ?_⟩
      · rintro (h | ⟨h, h'⟩)
        · exact ⟨_, by rw [if_neg (by omega)], h⟩
        · exact ⟨-1, by rw [if_pos h, if_pos (by omega), if_pos h'], by omega⟩
      · rintro ⟨h, h'⟩
        rw [if_pos h, if_neg (by omega)]
      · rintro (h | ⟨h, h'⟩)
        · exact ⟨_, by rw [if_neg (by omega)], h⟩
        · exact ⟨1, by rw [if_pos h, if_pos (by omega), if_neg (by omega)], by omega⟩
    · rw [loop_body_unbounded_other_other_ne ta tb ha hb hq]
      simp only [lex_cons_cons, lt_irrefl, false_or, true_and, List.cons.injEq]
      refine ⟨?_, ?_, ?_⟩
      · rintro (h | ⟨h, _⟩)
        · exact ⟨-1, by rw [if_pos h], by omega⟩
        · exact absurd h hq
      · rintro ⟨h, _⟩
        exact absurd h hq
      · rintro (h | ⟨h, _⟩)
        · exact ⟨1, by rw [if_neg (by omega)], by omega⟩
        · exact absurd h.symm hq
  · -- other characters against a digit run
    rw [key_cons_other ta ha, key_cons_digit tb hb, loop_body_unbounded_other_digit ta tb ha hb]
    simp only [lex_cons_cons, List.cons.injEq]
    refine ⟨?_, ?_, ?_⟩
    · rintro (h | ⟨h, _⟩) <;> omega
    · rintro ⟨h, _⟩; omega
    · intro _; exact ⟨1, rfl, by omega⟩
  · -- a digit run against other characters
    rw [key_cons_digit ta ha, key_cons_other tb hb, loop_body_unbounded_digit_other ta tb ha hb]
    simp only [lex_cons_cons, List.cons.injEq]
    refine ⟨?_, ?_, ?_⟩
    · intro _; exact ⟨-1, rfl, by omega⟩
    · rintro ⟨h, _⟩; omega
    · rintro (h | ⟨h, _⟩) <;> omega
  · -- two digit runs
    rw [key_cons_digit ta ha, key_cons_digit tb hb, loop_body_unbounded_digit_digit ta tb ha hb,
      compare_segments_unbounded_digit]
    simp only [lex_cons_cons, lt_irrefl, false_or, true_and, List.cons.injEq, and_true,
      List.Lex.not_nil_right, and_false, or_false, Nat.cast_lt, Nat.cast_inj]
    refine ⟨?_, ?_, ?_⟩
    · rintro (h | ⟨h, h'⟩)
      · exact ⟨-1, by rw [if_pos h], by omega⟩
      · exact ⟨-1, by rw [if_neg (by omega), if_pos h, if_pos (by omega), if_pos h'], by omega⟩
    · rintro ⟨h, h'⟩
      rw [if_neg (by omega), if_pos h, if_neg (by omega)]
    · rintro (h | ⟨h, h'⟩)
      · exact ⟨1, by rw [if_neg (by omega), if_neg (by omega)], by omega⟩
      · exact ⟨1, by rw [if_neg (by omega), if_pos h.symm, if_pos (by omega), if_neg (by omega)],
          by omega⟩

/-! ## Order properties -/

theorem strspn_all_digits : ∀ (x : List Int), (∀ c ∈ x, isdigit c = true) →
    strspn x digits = x.length := by
  intro x
  induction x with
  | nil => intro _; rfl
  | cons c x ih =>
    intro h
    rw [strspn_cons_digit x (h c (List.mem_cons_self c x)),
      ih (fun d hd => h d (List.mem_cons_of_mem c hd))]
    rfl

theorem decimal_all_digits : ∀ (x : List Int) (acc : Nat), (∀ c ∈ x, isdigit c = true) →
    decimal x acc = acc * 10 ^ x.length + value x := by
  intro x
  induction x with
  | nil => intro acc _; simp [decimal, value]
  | cons c x ih =>
    intro acc h
    rw [decimal, if_pos (h c (List.mem_cons_self c x)),
      ih _ (fun d hd => h d (List.mem_cons_of_mem c hd))]
    simp only [value, List.reverse_cons, List.map_append, List.map_cons, List.map_nil,
      Nat.ofDigits_append, Nat.ofDigits_singleton, List.length_map, List.length_reverse,
      List.length_cons]
    ring

theorem atoi_all_digits (x : List Int) (h : ∀ c ∈ x, isdigit c = true)
    (hv : value x ≤ INT_MAX) : atoi x = (value x : Int) := by
  have hd := decimal_all_digits x 0 h
  simp only [Nat.zero_mul, Nat.zero_add] at hd
  unfold atoi to_int
  rw [hd]
  unfold INT_MAX at hv
  have : min (value x) LONG_MAX = value x := by
    unfold LONG_MAX
    omega
  rw [this]
  omega

theorem unbounded_digit_digit {qa qb : Int} (ta tb : List Int)
    (ha : isdigit qa = true) (hb : isdigit qb = true) :
    do_model_compare_unbounded (qa :: ta) (qb :: tb) =
      if atoi (qa :: ta) < atoi (qb :: tb) then -1
      else if atoi (qa :: ta) = atoi (qb :: tb) then
        (if seg_len (qa :: ta) ≠ seg_len (qb :: tb) then
          (if seg_len (qa :: ta) < seg_len (qb :: tb) then -1 else 1)
         else do_model_compare_unbounded ((qa :: ta).drop (seg_len (qa :: ta)))
          ((qb :: tb).drop (seg_len (qb :: tb))))
      else 1 := by
  rw [unbounded_cons, loop_body_unbounded_digit_digit ta tb ha hb, compare_segments_unbounded_digit]
  split_ifs <;> rfl

theorem seg_len_all_digits {q : Int} (t : List Int) (h : ∀ c ∈ q :: t, isdigit c = true) :
    seg_len (q :: t) = (q :: t).length := by
  rw [seg_len_cons_digit t (h q (List.mem_cons_self q t)),
    strspn_all_digits t (fun d hd => h d (List.mem_cons_of_mem q hd))]
  rfl

theorem equal_value_digit_runs_unbounded (a b : List Int) (ha0 : a ≠ []) (hb0 : b ≠ [])
    (ha : ∀ c ∈ a, isdigit c = true) (hb : ∀ c ∈ b, isdigit c = true)
    (hv : value a = value b) (hr : value a ≤ INT_MAX) :
    do_model_compare_unbounded a b =
      if a.length < b.length then -1 else if a.length = b.length then 0 else 1 := by
  cases a with
  | nil => exact absurd rfl ha0
  | cons qa ta =>
    cases b with
    | nil => exact absurd rfl hb0
    | cons qb tb =>
      rw [unbounded_digit_digit ta tb (ha qa (List.mem_cons_self qa ta))
        (hb qb (List.mem_cons_self qb tb)), atoi_all_digits _ ha hr,
        atoi_all_digits _ hb (hv ▸ hr), hv, seg_len_all_digits ta ha, seg_len_all_digits tb hb,
        if_neg (lt_irrefl _), if_pos rfl]
      by_cases hl : (qa :: ta).length = (qb :: tb).length
      · rw [if_neg (by omega), if_neg (by omega), if_pos hl, List.drop_length,
          unbounded_nil_left]
      · rw [if_pos hl, if_neg hl]

theorem loop_body_unbounded_next (qa qb : Int) (ta tb a' b' : List Int)
    (h : loop_body_unbounded qa qb (qa :: ta) (qb :: tb) = Step_unbounded.next a' b') :
    a' = (qa :: ta).drop (seg_len (qa :: ta)) ∧ b' = (qb :: tb).drop (seg_len (qb :: tb)) := by
  rcases lex_trichotomy (key (qa :: ta)) (key (qb :: tb)) with hk | hk | hk
  · obtain ⟨r, hr, _⟩ := (loop_body_unbounded_spec qa qb ta tb).1 hk
    rw [hr] at h
    exact Step_unbounded.noConfusion h
  · rw [(loop_body_unbounded_spec qa qb ta tb).2.1 hk] at h
    injection h with h1 h2
    exact ⟨h1.symm, h2.symm⟩
  · obtain ⟨r, hr, _⟩ := (loop_body_unbounded_spec qa qb ta tb).2.2 hk
    rw [hr] at h
    exact Step_unbounded.noConfusion h

/-! ## The loop of the source on strings shorter than `2^31` bytes -/

theorem to_int_of_lt (n : Nat) (h : n < 2 ^ 31) : to_int (n : Int) = (n : Int) := by
  unfold to_int
  omega

theorem to_size_of_lt (n : Nat) (h : n < 2 ^ 31) : to_size (n : Int) = n := by
  unfold to_size
  omega

theorem strspn_eq_seg_len {q : Int} (t : List Int) (h : isdigit q = true) :
    strspn (q :: t) digits = seg_len (q :: t) := by
  rw [seg_len_cons_digit t h, strspn_cons_digit t h]

theorem strcspn_eq_seg_len {q : Int} (t : List Int) (h : isdigit q = false) :
    strcspn (q :: t) digits = seg_len (q :: t) := by
  rw [seg_len_cons_other t h, strcspn_cons_other t h]

theorem to_int_seg_len (q : Int) (t : List Int) (l : (q :: t).length < 2 ^ 31) :
    to_int (seg_len (q :: t) : Nat) = (seg_len (q :: t) : Nat) ∧ (seg_len (q :: t) : Int) ≠ 0 := by
  have h1 := seg_len_le (q :: t)
  have h2 := seg_len_pos q t
  exact ⟨to_int_of_lt _ (by omega), by omega⟩

theorem to_int_zero : to_int ((0 : Nat) : Int) = 0 := by decide

theorem compare_segments_digit (a b : List Int) (end_a end_b : Nat) :
    compare_segments a b (end_a : Int) (end_b : Int) true =
      if atoi a < atoi b then Step.ret (-1)
      else if atoi a = atoi b then
        (if end_a ≠ end_b then Step.ret (if end_a < end_b then -1 else 1)
         else Step.next (end_a : Int) (end_b : Int))
      else Step.ret 1 := by
  simp only [compare_segments]
  split_ifs <;> simp_all

theorem compare_segments_other (a b : List Int) (end_a end_b : Nat) (ha : end_a < 2 ^ 31)
    (hb : end_b < 2 ^ 31) :
    compare_segments a b (end_a : Int) (end_b : Int) false =
      if strncmp a b (if end_a < end_b then end_a else end_b) = 0 then
        (if end_a ≠ end_b then Step.ret (if end_a < end_b then -1 else 1)
         else Step.next (end_a : Int) (end_b : Int))
      else Step.ret (strncmp a b (if end_a < end_b then end_a else end_b)) := by
  by_cases h : end_a < end_b
  · have h' : (end_a : Int) < (end_b : Int) := by exact_mod_cast h
    have hne : (end_a : Int) ≠ (end_b : Int) := by omega
    have hne' : end_a ≠ end_b := by omega
    simp only [compare_segments, if_pos h', if_pos h, to_size_of_lt _ ha, Bool.false_eq_true,
      if_false, if_pos hne, if_pos hne']
  · have h' : ¬ (end_a : Int) < (end_b : Int) := by omega
    simp only [compare_segments, if_neg h', if_neg h, to_size_of_lt _ hb, Bool.false_eq_true,
      if_false, Nat.cast_inj, ne_eq]

theorem loop_body_digit_digit {qa qb : Int} (ta tb : List Int)
    (ha : isdigit qa = true) (hb : isdigit qb = true)
    (la : (qa :: ta).length < 2 ^ 31) (lb : (qb :: tb).length < 2 ^ 31) :
    loop_body qa qb (qa :: ta) (qb :: tb) =
      compare_segments (qa :: ta) (qb :: tb) (seg_len (qa :: ta) : Nat) (seg_len (qb :: tb) : Nat)
        true := by
  obtain ⟨e1, z1⟩ := to_int_seg_len qa ta la
  obtain ⟨e2, z2⟩ := to_int_seg_len qb tb lb
  simp only [loop_body, strspn_eq_seg_len ta ha, strspn_eq_seg_len tb hb, e1, e2, ha, hb]
  simp [z1, z2]

theorem loop_body_digit_other {qa qb : Int} (ta tb : List Int)
    (ha : isdigit qa = true) (hb : isdigit qb = false)
    (la : (qa :: ta).length < 2 ^ 31) :
    loop_body qa qb (qa :: ta) (qb :: tb) = Step.ret (-1) := by
  obtain ⟨e1, z1⟩ := to_int_seg_len qa ta la
  simp only [loop_body, strspn_eq_seg_len ta ha, strspn_cons_other tb hb, e1, ha, hb, to_int_zero]
  simp [z1]

theorem loop_body_other_digit {qa qb : Int} (ta tb : List Int)
    (ha : isdigit qa = false) (hb : isdigit qb = true)
    (lb : (qb :: tb).length < 2 ^ 31) :
    loop_body qa qb (qa :: ta) (qb :: tb) = Step.ret 1 := by
  obtain ⟨e2, z2⟩ := to_int_seg_len qb tb lb
  simp only [loop_body, strspn_eq_seg_len tb hb, strspn_cons_other ta ha, e2, ha, hb, to_int_zero]
  simp [z2]

theorem loop_body_other_other_ne {qa qb : Int} (ta tb : List Int)
    (ha : isdigit qa = false) (hb : isdigit qb = false) (hne : qa ≠ qb) :
    loop_body qa qb (qa :: ta) (qb :: tb) = Step.ret (if qa < qb then -1 else 1) := by
  simp only [loop_body, ha, hb, hne, ne_eq, not_false_eq_true, and_self, if_true]
  split_ifs <;> rfl

theorem loop_body_other_other_eq {q : Int} (ta tb : List Int) (ha : isdigit q = false)
    (la : (q :: ta).length < 2 ^ 31) (lb : (q :: tb).length < 2 ^ 31) :
    loop_body q q (q :: ta) (q :: tb) =
      compare_segments (q :: ta) (q :: tb) (seg_len (q :: ta) : Nat) (seg_len (q :: tb) : Nat)
        false := by
  obtain ⟨e1, _⟩ := to_int_seg_len q ta la
  obtain ⟨e2, _⟩ := to_int_seg_len q tb lb
  simp only [loop_body, strspn_cons_other _ ha, strcspn_eq_seg_len ta ha,
    strcspn_eq_seg_len tb ha, e1, e2, to_int_zero]
  simp

/-- On strings shorter than `2^31` bytes one iteration of the source does what
the iteration with unbounded lengths does. -/
theorem loop_body_eq_unbounded (qa qb : Int) (ta tb : List Int)
    (la : (qa :: ta).length < 2 ^ 31) (lb : (qb :: tb).length < 2 ^ 31) :
    loop_body qa qb (qa :: ta) (qb :: tb) =
      match loop_body_unbounded qa qb (qa :: ta) (qb :: tb) with
      | Step_unbounded.ret r => Step.ret r
      | Step_unbounded.next _ _ =>
        Step.next (seg_len (qa :: ta) : Nat) (seg_len (qb :: tb) : Nat) := by
  have ba : seg_len (qa :: ta) < 2 ^ 31 := lt_of_le_of_lt (seg_len_le _) la
  have bb : seg_len (qb :: tb) < 2 ^ 31 := lt_of_le_of_lt (seg_len_le _) lb
  cases ha : isdigit qa <;> cases hb : isdigit qb
  · by_cases hq : qa = qb
    · subst hq
      rw [loop_body_other_other_eq ta tb ha la lb, loop_body_unbounded_other_other_eq ta tb ha,
        compare_segments_other _ _ _ _ ba bb, compare_segments_unbounded_other]
      split_ifs <;> rfl
    · rw [loop_body_other_other_ne ta tb ha hb hq,
        loop_body_unbounded_other_other_ne ta tb ha hb hq]
  · rw [loop_body_other_digit ta tb ha hb lb, loop_body_unbounded_other_digit ta tb ha hb]
  · rw [loop_body_digit_other ta tb ha hb la, loop_body_unbounded_digit_other ta tb ha hb]
  · rw [loop_body_digit_digit ta tb ha hb la lb, loop_body_unbounded_digit_digit ta tb ha hb,
      compare_segments_digit, compare_segments_unbounded_digit]
    split_ifs <;> rfl

theorem fuel_eq_unbounded : ∀ (fuel : Nat) (sa sb : List Int) (i j : Nat),
    sa.length < 2 ^ 31 → sb.length < 2 ^ 31 →
    min (sa.length - i) (sb.length - j) < fuel →
    do_model_compare_fuel fuel sa sb i j =
      Outcome.ret (do_model_compare_unbounded (sa.drop i) (sb.drop j)) := by
  intro fuel
  induction fuel with
  | zero => intro sa sb i j _ _ h; omega
  | succ n ih =>
    intro sa sb i j la lb h
    rw [do_model_compare_fuel]
    cases ea : sa.drop i with
    | nil => simp only [unbounded_nil_left]
    | cons qa ta =>
      cases eb : sb.drop j with
      | nil => simp only [unbounded_nil_right]
      | cons qb tb =>
        have la' : (qa :: ta).length < 2 ^ 31 := by
          rw [← ea, List.length_drop]; omega
        have lb' : (qb :: tb).length < 2 ^ 31 := by
          rw [← eb, List.length_drop]; omega
        have ha1 : (qa :: ta).length = sa.length - i := by rw [← ea, List.length_drop]
        have hb1 : (qb :: tb).length = sb.length - j := by rw [← eb, List.length_drop]
        simp only [loop_body_eq_unbounded qa qb ta tb la' lb']
        rw [unbounded_cons]
        cases hl : loop_body_unbounded qa qb (qa :: ta) (qb :: tb) with
        | ret r => rfl
        | next a' b' =>
          obtain ⟨h1, h2⟩ := loop_body_unbounded_next qa qb ta tb a' b' hl
          have p1 := seg_len_pos qa ta
          have p2 := seg_len_pos qb tb
          have q1 := seg_len_le (qa :: ta)
          have q2 := seg_len_le (qb :: tb)
          simp only []
          rw [if_pos (by omega)]
          have t1 : ((i : Int) + (seg_len (qa :: ta) : Nat)).toNat = i + seg_len (qa :: ta) := by
            omega
          have t2 : ((j : Int) + (seg_len (qb :: tb) : Nat)).toNat = j + seg_len (qb :: tb) := by
            omega
          rw [t1, t2, ih sa sb _ _ la lb (by omega), h1, h2, ← ea, ← eb, List.drop_drop,
            List.drop_drop]

/-- On strings shorter than `2^31` bytes `do_model_compare` returns, and what it
returns is the result of the loop with unbounded lengths. -/
theorem do_model_compare_eq_unbounded (a b : List Int) (la : a.length < 2 ^ 31)
    (lb : b.length < 2 ^ 31) :
    do_model_compare a b = Outcome.ret (do_model_compare_unbounded a b) := by
  unfold do_model_compare
  rw [fuel_eq_unbounded (a.length + 1) a b 0 0 la lb (by omega)]
  rfl

/-! ## Runs of `2^31` characters and more -/

/-- C2, as the code behaves: `"007"` and `"07"` are digit runs of the same
value, 7, and `do_model_compare` returns Greater (1) for them, not Equal. -/
theorem leading_zeros_counterexample :
    (cstr "007").all isdigit = true ∧ (cstr "07").all isdigit = true ∧
      value (cstr "007") = value (cstr "07") ∧ value (cstr "007") ≤ INT_MAX ∧
      do_model_compare (cstr "007") (cstr "07") = Outcome.ret 1 ∧
      do_model_compare (cstr "007") (cstr "07") ≠ Outcome.ret 0 := by
  decide

/-- C2, amended. For two non-empty digit runs shorter than `2^31` bytes of the
same value (within the `int` range) the lengths of the runs decide: the result
is Less (-1) when `a` is the shorter run, Greater (1) when it is the longer
one, and Equal (0) only when the two runs have the same length. -/
theorem equal_value_digit_runs (a b : List Int) (ha0 : a ≠ []) (hb0 : b ≠ [])
    (ha : ∀ c ∈ a, isdigit c = true) (hb : ∀ c ∈ b, isdigit c = true)
    (hv : value a = value b) (hr : value a ≤ INT_MAX)
    (la : a.length < 2 ^ 31) (lb : b.length < 2 ^ 31) :
    do_model_compare a b =
      Outcome.ret (if a.length < b.length then -1 else if a.length = b.length then 0 else 1) := by
  rw [do_model_compare_eq_unbounded a b la lb,
    equal_value_digit_runs_unbounded a b ha0 hb0 ha hb hv hr]

theorem equal_value_digit_runs_witness :
    value (cstr "07") = value (cstr "007") ∧
      do_model_compare (cstr "07") (cstr "007") = Outcome.ret (-1) :=
  ⟨by decide, equal_value_digit_runs (cstr "07") (cstr "007") (by decide) (by decide)
    (by decide) (by decide) (by decide) (by decide) (by decide) (by decide)⟩

/-! ## Strings without digits, and a string against its extension -/

theorem in_order_of_le (x y : List Int)
    (h : ∃ r, do_model_compare x y = Outcome.ret r ∧ r ≤ 0) : in_order x y = true := by
  obtain ⟨r, hr, hle⟩ := h
  unfold in_order
  rw [hr]
  simpa using hle

theorem scenario_unique : ∀ l ∈ scenario_input.permutations',
    all_in_order l = true → l = scenario_sorted := by
  decide

theorem all_in_order_of_chain : ∀ (l : List (List Int)),
    List.Chain' (fun x y => ∃ r, do_model_compare x y = Outcome.ret r ∧ r ≤ 0) l →
      all_in_order l = true := by
  intro l
  induction l with
  | nil => intro _; rfl
  | cons x l ih =>
    intro h
    cases l with
    | nil => rfl
    | cons y l =>
      rw [List.chain'_cons] at h
      simp only [all_in_order, Bool.and_eq_true]
      exact ⟨in_order_of_le x y h.1, ih h.2⟩

/-- C6. The end-to-end scenario.  In the list HP-2, HP-20, HP-200, HP-1000
every identifier compares Less (-1) with every later one and Greater (1) the
other way round; and a permutation of the four identifiers of the input is in
the order of the comparator (no identifier compares Greater with its successor)
exactly when it is that list, so that sorting the input yields it. -/
theorem end_to_end_sort :
    scenario_sorted.Pairwise
        (fun x y => do_model_compare x y = Outcome.ret (-1) ∧
          do_model_compare y x = Outcome.ret 1) ∧
      (∀ l : List (List Int), l.Perm scenario_input →
        (List.Chain' (fun x y => ∃ r, do_model_compare x y = Outcome.ret r ∧ r ≤ 0) l ↔
          l = scenario_sorted)) := by
  have hp : scenario_sorted.Pairwise
      (fun x y => do_model_compare x y = Outcome.ret (-1) ∧
        do_model_compare y x = Outcome.ret 1) := by
    decide
  refine ⟨hp, ?_⟩
  intro l hl
  constructor
  · intro hc
    exact scenario_unique l (List.mem_permutations'.2 hl) (all_in_order_of_chain l hc)
  · intro he
    rw [he]
    apply List.Pairwise.chain'
    exact hp.imp (fun h => ⟨-1, h.1, by decide⟩)

theorem end_to_end_sort_witness :
    scenario_sorted.Perm scenario_input ∧
      List.Chain' (fun x y => ∃ r, do_model_compare x y = Outcome.ret r ∧ r ≤ 0)
        scenario_sorted :=
  have hperm : scenario_sorted.Perm scenario_input := by decide
  ⟨hperm, (end_to_end_sort.2 scenario_sorted hperm).2 rfl⟩

end Cups
